import Mathlib

/-!
# Verification of the obsidian-toc-generator core

A shallow embedding of the TOC plugin's core (`src/processor.ts` and the
settings record of `src/main.ts`), together with theorems settling the
frozen claims about:

* config normalization (`normalizeConfig`, `clampLevel`),
* the hierarchy/list rendering loop of `renderToc` (filtering, numbering,
  shape cycling, character stripping, anchors),
* the heading-signature change detection of `refreshTocForPath`,
* the inline configuration parser `parseTocConfig`.

Heading levels and the numeric `minLevel`/`maxLevel` configuration fields
are modelled as integers (`Int`); heading text and configuration strings
are Unicode strings (`String`).  JavaScript platform facilities used by
the source (`RegExp` character classes, `JSON.stringify` of string arrays,
`String.prototype.trim`, `split`, `JSON.parse`) are modelled explicitly
below, each next to the source function that uses it.
-/

namespace TocGen

/-- Named character constants, used instead of quote/backslash character
literals throughout. -/
def quoteChar : Char := Char.ofNat 34

/-- The apostrophe character `U+0027`. -/
def apostropheChar : Char := Char.ofNat 39

/-- The backslash character `U+005C`. -/
def backslashChar : Char := Char.ofNat 92

/-- A heading as delivered by the host metadata cache (`getHeadings`):
original text and level.  Document order is the list order. -/
structure Heading where
  heading : String
  level : Int
deriving DecidableEq

/-- Figlet options for TOC, from `type TocFigletConfig` in the source.
`fontSize`/`lineHeight`/`opacity` are `Option (Option Rat)`: the outer
`none` is "field not set", the inner `none` models the JavaScript `NaN`
that `parseFloat` produces on non-numeric input. -/
structure TocFigletConfig where
  font : Option String := none
  color : Option String := none
  colors : Option (List String) := none
  fontSize : Option (Option Rat) := none
  lineHeight : Option (Option Rat) := none
  centered : Option Bool := none
  opacity : Option (Option Rat) := none
  multiCenter : Option Bool := none
  text : Option String := none
deriving DecidableEq

/-- The raw TOC configuration, from `type TocConfig` in the source, with
the field types declared there (`minLevel?: number` etc. — numeric fields
are modelled as integers, see the file docstring). -/
structure TocConfig where
  title : Option String := none
  minLevel : Option Int := none
  maxLevel : Option Int := none
  numbered : Option Bool := none
  shapes : Option (List String) := none
  remove_chars : Option (List String) := none
  figlet : Option TocFigletConfig := none
deriving DecidableEq

/-- The persisted plugin settings (`TocPluginSettings` in `src/main.ts`),
restricted to the fields `getDefaults` reads. -/
structure TocPluginSettings where
  defaultTitle : String
  defaultMinLevel : Int
  defaultMaxLevel : Int
  defaultNumbered : Bool
  defaultShapes : List String
deriving DecidableEq

/-- `DEFAULT_SETTINGS` from `src/main.ts` (the fields `getDefaults` reads). -/
def DEFAULT_SETTINGS : TocPluginSettings :=
  { defaultTitle := ""
    defaultMinLevel := 1
    defaultMaxLevel := 6
    defaultNumbered := false
    defaultShapes := [] }

/-- The defaults record produced by `getDefaults` in the source. -/
structure TocDefaults where
  title : String
  minLevel : Int
  maxLevel : Int
  numbered : Bool
  shapes : List String
  remove_chars : List String
  figlet : Option TocFigletConfig
deriving DecidableEq

/-- `getDefaults`: reads the plugin settings into the defaults record,
with `remove_chars` fixed to `[]` and `figlet` to `undefined`. -/
def getDefaults (s : TocPluginSettings) : TocDefaults :=
  { title := s.defaultTitle
    minLevel := s.defaultMinLevel
    maxLevel := s.defaultMaxLevel
    numbered := s.defaultNumbered
    shapes := s.defaultShapes
    remove_chars := []
    figlet := none }

/-- `clampLevel` from the source: clamp a level to `[1, 6]`. -/
def clampLevel (level : Int) : Int :=
  if level < 1 then 1
  else if level > 6 then 6
  else level

/-- The normalized configuration, `NormalizedTocConfig` in the source:
every field of `TocConfig` defaulted except the optional `figlet`. -/
structure NormalizedTocConfig where
  title : String
  minLevel : Int
  maxLevel : Int
  numbered : Bool
  shapes : List String
  remove_chars : List String
  figlet : Option TocFigletConfig
deriving DecidableEq

/-- `normalizeConfig` from the source: merge the raw config with the
defaults (`??` on each field; the `Array.isArray` guards on `shapes` and
`remove_chars` are presence tests in this typed model), clamp the two
levels independently, then swap them if `minLevel > maxLevel`. -/
def normalizeConfig (config : TocConfig) (s : TocPluginSettings) : NormalizedTocConfig :=
  let defaults := getDefaults s
  let normalized : NormalizedTocConfig :=
    { title := config.title.getD defaults.title
      minLevel := clampLevel (config.minLevel.getD defaults.minLevel)
      maxLevel := clampLevel (config.maxLevel.getD defaults.maxLevel)
      numbered := config.numbered.getD defaults.numbered
      shapes := config.shapes.getD defaults.shapes
      remove_chars := config.remove_chars.getD defaults.remove_chars
      figlet := config.figlet }
  if normalized.minLevel > normalized.maxLevel then
    { normalized with
      minLevel := normalized.maxLevel
      maxLevel := normalized.minLevel }
  else normalized

theorem clampLevel_bounds (level : Int) : 1 ≤ clampLevel level ∧ clampLevel level ≤ 6 := by
  unfold clampLevel
  split_ifs <;> omega

/-!
## The character-stripping regex (`stripChars`)

`stripChars` builds `new RegExp("[" + escaped.join("") + "]", "g")` where
each entry of `remove_chars` has the characters of the class
`[\\^$.*+?()[\]{}|]` backslash-escaped, and removes every matching
character from the text.  The JavaScript regular-expression character
class is modelled below: the class content is tokenized into escaped and
raw characters (exactly how the engine re-lexes the concatenated escaped
entries, since every introduced backslash starts a two-character escape),
and parsed into single-character atoms and `a-b` ranges.  An out-of-order
range makes the `RegExp` constructor throw a `SyntaxError`, modelled by
`Option.none` propagating out of `stripChars`. -/

/-- The characters escaped by `char.replace(/[\\^$.*+?()[\]{}|]/g, "\\$&")`. -/
def regexSpecials : List Char :=
  [backslashChar, '^', '$', '.', '*', '+', '?', '(', ')', '[', ']', '{', '}', '|']

/-- A lexed token of the character class: an escaped or a raw character. -/
inductive RTok where
  | esc (c : Char)
  | raw (c : Char)
deriving DecidableEq

/-- The character an atom token stands for. -/
def RTok.char : RTok → Char
  | .esc c => c
  | .raw c => c

/-- The token stream of the class built from `remove_chars`: empty entries
are dropped (`chars.filter(char => char.length > 0)`), every character of
each remaining entry contributes one token, escaped when it is a regex
special character. -/
def classTokens (chars : List String) : List RTok :=
  (chars.filter (fun char => 0 < char.length)).flatMap
    (fun s => s.data.map (fun c => if c ∈ regexSpecials then RTok.esc c else RTok.raw c))

/-- A parsed member of the character class. -/
inductive ClassItem where
  | single (c : Char)
  | range (lo hi : Char)
deriving DecidableEq

/-- Parse the class tokens the way the regex engine does: an unescaped
`-` between two atoms forms a range (a `SyntaxError`, hence `none`, when
out of order); a leading or trailing `-` is a literal. -/
def parseClassItems : List RTok → Option (List ClassItem)
  | [] => some []
  | [a] => some [ClassItem.single a.char]
  | [a, b] => (parseClassItems [b]).map (fun l => ClassItem.single a.char :: l)
  | a :: b' :: b :: rest =>
    if b' = RTok.raw '-' then
      if a.char ≤ b.char then
        (parseClassItems rest).map (fun l => ClassItem.range a.char b.char :: l)
      else none
    else (parseClassItems (b' :: b :: rest)).map (fun l => ClassItem.single a.char :: l)

/-- Whether a character matches one of the class members. -/
def classMatches (items : List ClassItem) (c : Char) : Bool :=
  items.any (fun it =>
    match it with
    | .single a => c = a
    | .range lo hi => decide (lo ≤ c) && decide (c ≤ hi))

/-- `stripChars` from the source.  `none` models the propagated
`SyntaxError` of the `RegExp` constructor; `text.replace(pattern, "")`
with the global flag removes every matching character. -/
def stripChars (text : String) (chars : List String) : Option String :=
  if chars.length = 0 then some text
  else if (chars.filter (fun char => 0 < char.length)).length = 0 then some text
  else
    match parseClassItems (classTokens chars) with
    | none => none
    | some items => some ⟨text.data.filter (fun c => !classMatches items c)⟩

/-- Whether building the removal pattern for `chars` succeeds (no
out-of-order range in the class). -/
def patternOk (chars : List String) : Bool :=
  (parseClassItems (classTokens chars)).isSome

theorem stripChars_isSome (text : String) (chars : List String)
    (h : patternOk chars = true) : (stripChars text chars).isSome := by
  unfold patternOk at h
  unfold stripChars
  split_ifs <;> try simp
  cases hp : parseClassItems (classTokens chars) with
  | none => rw [hp] at h; simp at h
  | some items => simp [hp]

/-!
## The rendering loop of `renderToc`

The DOM-building loop of `renderToc` is embedded as a pure function
producing the ordered list of rendered items.  Each `li` is a `TocItem`;
the nested `ul` structure is tracked through the `stack` of frame levels
(`stack[stack.length - 1]` in the source is the head of the list here,
since `push`/`pop` act on the array's end).  The loop state mirrors the
local mutable variables `stack`, `currentLevel`, `lastItem` (only its
non-nullness matters for control flow), `shapeCounter` and `counters`. -/

/-- One rendered list item: its heading level (`dataset.level`), the
optional numbering span text, the optional shape marker
(`dataset.shape`), the display text of the link and the link `href`. -/
structure TocItem where
  level : Int
  numberLabel : Option String
  shapeMarker : Option String
  displayText : String
  href : String
deriving DecidableEq

/-- The loop's mutable state. -/
structure LoopState where
  stack : List Int
  currentLevel : Int
  lastItem : Bool
  shapeCounter : Nat
  counters : List Nat
deriving DecidableEq

/-- The pushes of the first `while` loop: with a previous sibling item in
hand, one nested list is pushed per level until `currentLevel` reaches the
heading's level. -/
def descendLoop : Nat → List Int → Int → List Int × Int
  | 0, stack, cur => (stack, cur)
  | n + 1, stack, cur => descendLoop n ((cur + 1) :: stack) (cur + 1)

/-- `while (heading.level > currentLevel) { if (!lastItem) break; ... }`:
no push happens without a previous sibling item; otherwise exactly
`heading.level - currentLevel` frames are pushed (none if the difference
is not positive). -/
def descend (hlevel : Int) (lastItem : Bool) (stack : List Int) (cur : Int) :
    List Int × Int :=
  if lastItem then descendLoop (hlevel - cur).toNat stack cur else (stack, cur)

/-- `while (heading.level < currentLevel && stack.length > 1) { pop }`:
frames are popped while the heading is shallower, never past the root. -/
def ascend (hlevel : Int) : List Int → Int → List Int × Int
  | [], cur => ([], cur)
  | [top], cur => ([top], cur)
  | top :: next :: rest, cur =>
    if hlevel < cur then ascend hlevel (next :: rest) (cur - 1)
    else (top :: next :: rest, cur)

/-- The numbering update: `while (counters.length <= levelIndex) push(0)`,
then `counters.splice(levelIndex + 1)`, then increment slot `levelIndex`
(`counters[levelIndex] = (counters[levelIndex] ?? 0) + 1`). -/
def bumpCounters (counters : List Nat) (levelIndex : Nat) : List Nat :=
  let padded := counters ++ List.replicate (levelIndex + 1 - counters.length) 0
  let spliced := padded.take (levelIndex + 1)
  spliced.set levelIndex (spliced.getD levelIndex 0 + 1)

/-- The `for (const heading of filtered)` loop, returning the rendered
items in document order.  `stack2.head?` is `currentList`
(`stack[stack.length - 1]`); the `continue` on a missing frame skips the
item.  `none` propagates a `stripChars` failure (the thrown
`SyntaxError`). -/
def renderLoop (config : NormalizedTocConfig) :
    List Heading → LoopState → Option (List TocItem)
  | [], _ => some []
  | heading :: rest, st =>
    let desc := descend heading.level st.lastItem st.stack st.currentLevel
    let asc := ascend heading.level desc.1 desc.2
    match asc.1.head? with
    | none =>
      renderLoop config rest { st with stack := asc.1, currentLevel := asc.2 }
    | some _ =>
      let numbering :=
        if config.numbered then
          let levelIndex := (heading.level - config.minLevel).toNat
          let cs := bumpCounters st.counters levelIndex
          (some (String.intercalate "." (cs.map (fun n => toString n))), cs)
        else (none, st.counters)
      let shaping :=
        if config.numbered then (none, st.shapeCounter)
        else if 0 < config.shapes.length then
          (config.shapes[st.shapeCounter % config.shapes.length]?, st.shapeCounter + 1)
        else (none, st.shapeCounter)
      match stripChars heading.heading config.remove_chars with
      | none => none
      | some displayText =>
        let item : TocItem :=
          { level := heading.level
            numberLabel := numbering.1
            shapeMarker := shaping.1
            displayText := displayText
            href := "#" ++ heading.heading }
        (renderLoop config rest
            { stack := asc.1
              currentLevel := asc.2
              lastItem := true
              shapeCounter := shaping.2
              counters := numbering.2 }).map (fun items => item :: items)

/-- The filter of `renderToc` (and of `refreshTocForPath`):
`heading.level >= config.minLevel && heading.level <= config.maxLevel`. -/
def filteredHeadings (config : NormalizedTocConfig) (headings : List Heading) :
    List Heading :=
  headings.filter (fun heading =>
    decide (config.minLevel ≤ heading.level) && decide (heading.level ≤ config.maxLevel))

/-- The initial loop state: the stack seeded with the root frame at
`config.minLevel`, no previous item, counters empty. -/
def initialLoopState (config : NormalizedTocConfig) : LoopState :=
  { stack := [config.minLevel]
    currentLevel := config.minLevel
    lastItem := false
    shapeCounter := 0
    counters := [] }

/-- The item list `renderToc` produces for a heading list: filter, then
run the loop (an empty filtered list yields the "No headings found."
placeholder, i.e. no items). -/
def renderTocItems (config : NormalizedTocConfig) (headings : List Heading) :
    Option (List TocItem) :=
  renderLoop config (filteredHeadings config headings) (initialLoopState config)

theorem descendLoop_stack_ne (n : Nat) :
    ∀ (stack : List Int) (cur : Int), stack ≠ [] → (descendLoop n stack cur).1 ≠ [] := by
  induction n with
  | zero => intro stack cur h; simpa [descendLoop] using h
  | succ n ih =>
    intro stack cur _
    simpa [descendLoop] using ih ((cur + 1) :: stack) (cur + 1) (by simp)

theorem descend_stack_ne (hlevel : Int) (lastItem : Bool) (stack : List Int) (cur : Int)
    (h : stack ≠ []) : (descend hlevel lastItem stack cur).1 ≠ [] := by
  unfold descend
  split_ifs
  · exact descendLoop_stack_ne _ stack cur h
  · exact h

theorem ascend_stack_ne (hlevel : Int) :
    ∀ (stack : List Int) (cur : Int), stack ≠ [] → (ascend hlevel stack cur).1 ≠ []
  | [], _, h => absurd rfl h
  | [top], cur, _ => by simp [ascend]
  | top :: next :: rest, cur, _ => by
    rw [ascend]
    split_ifs with h
    · exact ascend_stack_ne hlevel (next :: rest) (cur - 1) (by simp)
    · simp

/-- The main structural lemma on the rendering loop: when the removal
pattern is valid and the frame stack is non-empty, the loop emits exactly
one item per heading, in order, with the heading's level, the
`"#" + heading` anchor, the stripped display text, and — when numbering
is off and shapes are configured — the flat-counter shape marker. -/
theorem renderLoop_spec (config : NormalizedTocConfig)
    (hok : patternOk config.remove_chars = true) :
    ∀ (hs : List Heading) (st : LoopState), st.stack ≠ [] →
      ∃ items, renderLoop config hs st = some items ∧
        items.map (fun it => (it.level, it.href)) =
          hs.map (fun h => (h.level, "#" ++ h.heading)) ∧
        items.map (fun it => some it.displayText) =
          hs.map (fun h => stripChars h.heading config.remove_chars) ∧
        (config.numbered = false → config.shapes ≠ [] →
          items.map (fun it => it.shapeMarker) =
            (List.range hs.length).map
              (fun i => config.shapes[(st.shapeCounter + i) % config.shapes.length]?)) := by
  intro hs
  induction hs with
  | nil => exact fun st _ => ⟨[], rfl, rfl, rfl, fun _ _ => rfl⟩
  | cons h t ih =>
    intro st hne
    have hdesc := descend_stack_ne h.level st.lastItem st.stack st.currentLevel hne
    have hasc := ascend_stack_ne h.level
      (descend h.level st.lastItem st.stack st.currentLevel).1
      (descend h.level st.lastItem st.stack st.currentLevel).2 hdesc
    cases hstk : (ascend h.level (descend h.level st.lastItem st.stack st.currentLevel).1
        (descend h.level st.lastItem st.stack st.currentLevel).2).1 with
    | nil => exact absurd hstk hasc
    | cons top restStack =>
      cases hsc : stripChars h.heading config.remove_chars with
      | none =>
        have := stripChars_isSome h.heading config.remove_chars hok
        rw [hsc] at this; simp at this
      | some displayText =>
        obtain ⟨items, hrun, hlvl, hdisp, hshape⟩ :=
          ih { stack := (ascend h.level (descend h.level st.lastItem st.stack
                  st.currentLevel).1 (descend h.level st.lastItem st.stack
                  st.currentLevel).2).1
               currentLevel := (ascend h.level (descend h.level st.lastItem st.stack
                  st.currentLevel).1 (descend h.level st.lastItem st.stack
                  st.currentLevel).2).2
               lastItem := true
               shapeCounter :=
                 (if config.numbered then (none, st.shapeCounter)
                  else if 0 < config.shapes.length then
                    (config.shapes[st.shapeCounter % config.shapes.length]?,
                      st.shapeCounter + 1)
                  else (none, st.shapeCounter)).2
               counters :=
                 (if config.numbered then
                    let levelIndex := (h.level - config.minLevel).toNat
                    let cs := bumpCounters st.counters levelIndex
                    (some (String.intercalate "." (cs.map (fun n => toString n))), cs)
                  else (none, st.counters)).2 }
            (by rw [hstk]; simp)
        simp only [renderLoop]
        rw [hsc, hrun, hstk]
        simp only [List.head?_cons, Option.map_some']
        refine ⟨_, rfl, ?_, ?_, ?_⟩
        · simpa using hlvl
        · simpa [hsc] using hdisp
        · intro hnum hsh
          have hlen : 0 < config.shapes.length := List.length_pos.mpr hsh
          have htl := hshape hnum hsh
          simp only [hnum, Bool.false_eq_true, if_false, hlen, if_true, List.map_cons,
            List.length_cons] at htl ⊢
          rw [List.range_succ_eq_map]
          simp only [List.map_cons, List.map_map]
          congr 1
          rw [htl]
          refine List.map_congr_left (fun i _ => ?_)
          simp only [Function.comp_apply]
          have harith : st.shapeCounter + 1 + i = st.shapeCounter + i.succ := by omega
          rw [harith]

/-!
## The heading signature (`JSON.stringify` of a string array)

Both `renderToc` and `refreshTocForPath` compute
`JSON.stringify(filtered.map(h => level + ":" + h.heading))`.
`JSON.stringify` on an array of strings is modelled exactly: each string
is double-quoted with `"`, `\` and control characters (U+0000–U+001F)
escaped — the shorthand escapes `\b \t \n \f \r` and `\u00XX` (lowercase
hex) otherwise — and the quoted strings are joined with `,` inside
`[` `]`.  The decoder `unesc` below is a verification artifact (a left
inverse of the escaping, restricted to the escapes the encoder emits)
used to prove the serialization injective. -/

/-- Lowercase hexadecimal digit for a value below 16. -/
def hexDigit (n : Nat) : Char :=
  if n < 10 then Char.ofNat (48 + n) else Char.ofNat (87 + n)

/-- Value of a lowercase hexadecimal digit. -/
def hexVal (c : Char) : Option Nat :=
  if 48 ≤ c.toNat ∧ c.toNat ≤ 57 then some (c.toNat - 48)
  else if 97 ≤ c.toNat ∧ c.toNat ≤ 102 then some (c.toNat - 87)
  else none

/-- The escape sequence `JSON.stringify` emits for one character of a
string (the `QuoteJSONString` algorithm, for well-formed Unicode text). -/
def jsonEscapeChar (c : Char) : List Char :=
  if c = quoteChar then [backslashChar, quoteChar]
  else if c = backslashChar then [backslashChar, backslashChar]
  else if c = '\x08' then [backslashChar, 'b']
  else if c = '\t' then [backslashChar, 't']
  else if c = '\n' then [backslashChar, 'n']
  else if c = '\x0c' then [backslashChar, 'f']
  else if c = '\r' then [backslashChar, 'r']
  else if c.toNat < 32 then
    [backslashChar, 'u', '0', '0', hexDigit (c.toNat / 16), hexDigit (c.toNat % 16)]
  else [c]

/-- Decoder for the two-character escapes the encoder emits. -/
def unescEscapeChar (e : Char) : Option Char :=
  if e = quoteChar then some quoteChar
  else if e = backslashChar then some backslashChar
  else if e = 'b' then some '\x08'
  else if e = 't' then some '\t'
  else if e = 'n' then some '\n'
  else if e = 'f' then some '\x0c'
  else if e = 'r' then some '\r'
  else none

/-- Decode the escaped body of a JSON string up to its closing quote,
returning the decoded characters and the remainder after the quote. -/
def unesc : List Char → Option (List Char × List Char)
  | [] => none
  | c :: rest =>
    if c = quoteChar then some ([], rest)
    else if c = backslashChar then
      match rest with
      | [] => none
      | e :: rest2 =>
        if e = 'u' then
          match rest2 with
          | h1 :: h2 :: h3 :: h4 :: rest3 =>
            match hexVal h1, hexVal h2, hexVal h3, hexVal h4 with
            | some a, some b, some a2, some b2 =>
              (unesc rest3).map
                (fun p => (Char.ofNat (((a * 16 + b) * 16 + a2) * 16 + b2) :: p.1, p.2))
            | _, _, _, _ => none
          | _ => none
        else
          match unescEscapeChar e with
          | some ch => (unesc rest2).map (fun p => (ch :: p.1, p.2))
          | none => none
    else (unesc rest).map (fun p => (c :: p.1, p.2))

/-- A double-quoted JSON string literal for the given characters. -/
def jsonQuote (s : List Char) : List Char :=
  quoteChar :: (s.flatMap jsonEscapeChar ++ [quoteChar])

/-- The serialized elements after the first one: each preceded by `,`,
closed by `]`. -/
def jsonSep : List (List Char) → List Char
  | [] => [']']
  | s :: rest => ',' :: (jsonQuote s ++ jsonSep rest)

/-- `JSON.stringify` of an array of strings, on character lists. -/
def jsonEncodeStrings : List (List Char) → List Char
  | [] => ['[', ']']
  | s :: rest => '[' :: (jsonQuote s ++ jsonSep rest)

/-- `JSON.stringify` of an array of strings. -/
def jsonStringifyStrings (l : List String) : String :=
  ⟨jsonEncodeStrings (l.map String.data)⟩

/-- The per-heading pair serialization `` `${h.level}:${h.heading}` ``. -/
def headingPairString (h : Heading) : String :=
  toString h.level ++ ":" ++ h.heading

/-- The signature of a filtered heading list, as computed at
`refreshTocForPath` and `renderToc`:
`JSON.stringify(filtered.map(h => level + ":" + heading))`. -/
def headingsSignature (filtered : List Heading) : String :=
  jsonStringifyStrings (filtered.map headingPairString)

theorem hexVal_hexDigit (n : Nat) (h : n < 16) : hexVal (hexDigit n) = some n := by
  interval_cases n <;> decide

theorem unesc_quote (rest : List Char) : unesc (quoteChar :: rest) = some ([], rest) := by
  rw [unesc.eq_def]
  simp

theorem unesc_plain (c : Char) (rest : List Char) (h1 : c ≠ quoteChar)
    (h2 : c ≠ backslashChar) :
    unesc (c :: rest) = (unesc rest).map (fun p => (c :: p.1, p.2)) := by
  rw [unesc.eq_def]
  simp [h1, h2]

theorem unesc_escape (e : Char) (rest : List Char) (ch : Char)
    (he : unescEscapeChar e = some ch) (hu : e ≠ 'u') :
    unesc (backslashChar :: e :: rest) = (unesc rest).map (fun p => (ch :: p.1, p.2)) := by
  have hbq : backslashChar ≠ quoteChar := by decide
  rw [unesc.eq_def]
  simp [hbq, hu, he]

theorem unesc_hex (d1 d2 d3 d4 : Char) (rest : List Char) (a b a2 b2 : Nat)
    (e1 : hexVal d1 = some a) (e2 : hexVal d2 = some b) (e3 : hexVal d3 = some a2)
    (e4 : hexVal d4 = some b2) :
    unesc (backslashChar :: 'u' :: d1 :: d2 :: d3 :: d4 :: rest) =
      (unesc rest).map
        (fun p => (Char.ofNat (((a * 16 + b) * 16 + a2) * 16 + b2) :: p.1, p.2)) := by
  have hbq : backslashChar ≠ quoteChar := by decide
  rw [unesc.eq_def]
  simp [hbq, e1, e2, e3, e4]

theorem unesc_flatMap (s rest : List Char) :
    unesc (s.flatMap jsonEscapeChar ++ (quoteChar :: rest)) = some (s, rest) := by
  induction s with
  | nil => simpa using unesc_quote rest
  | cons c t ih =>
    rw [List.flatMap_cons, List.append_assoc]
    by_cases h1 : c = quoteChar
    · subst h1
      rw [show jsonEscapeChar quoteChar = [backslashChar, quoteChar] from by decide,
        List.cons_append, List.cons_append, List.nil_append,
        unesc_escape quoteChar _ quoteChar (by decide) (by decide), ih]
      rfl
    by_cases h2 : c = backslashChar
    · subst h2
      rw [show jsonEscapeChar backslashChar = [backslashChar, backslashChar] from by decide,
        List.cons_append, List.cons_append, List.nil_append,
        unesc_escape backslashChar _ backslashChar (by decide) (by decide), ih]
      rfl
    by_cases h3 : c = '\x08'
    · subst h3
      rw [show jsonEscapeChar '\x08' = [backslashChar, 'b'] from by decide,
        List.cons_append, List.cons_append, List.nil_append,
        unesc_escape 'b' _ '\x08' (by decide) (by decide), ih]
      rfl
    by_cases h4 : c = '\t'
    · subst h4
      rw [show jsonEscapeChar '\t' = [backslashChar, 't'] from by decide,
        List.cons_append, List.cons_append, List.nil_append,
        unesc_escape 't' _ '\t' (by decide) (by decide), ih]
      rfl
    by_cases h5 : c = '\n'
    · subst h5
      rw [show jsonEscapeChar '\n' = [backslashChar, 'n'] from by decide,
        List.cons_append, List.cons_append, List.nil_append,
        unesc_escape 'n' _ '\n' (by decide) (by decide), ih]
      rfl
    by_cases h6 : c = '\x0c'
    · subst h6
      rw [show jsonEscapeChar '\x0c' = [backslashChar, 'f'] from by decide,
        List.cons_append, List.cons_append, List.nil_append,
        unesc_escape 'f' _ '\x0c' (by decide) (by decide), ih]
      rfl
    by_cases h7 : c = '\r'
    · subst h7
      rw [show jsonEscapeChar '\r' = [backslashChar, 'r'] from by decide,
        List.cons_append, List.cons_append, List.nil_append,
        unesc_escape 'r' _ '\r' (by decide) (by decide), ih]
      rfl
    by_cases h8 : c.toNat < 32
    · have hform : jsonEscapeChar c =
          [backslashChar, 'u', '0', '0', hexDigit (c.toNat / 16), hexDigit (c.toNat % 16)] := by
        unfold jsonEscapeChar
        rw [if_neg h1, if_neg h2, if_neg h3, if_neg h4, if_neg h5, if_neg h6, if_neg h7,
          if_pos h8]
      have hdiv : c.toNat / 16 < 16 := by omega
      have hmod : c.toNat % 16 < 16 := by omega
      have h0 : hexVal '0' = some 0 := by decide
      rw [hform]
      simp only [List.cons_append, List.nil_append]
      rw [unesc_hex '0' '0' _ _ _ 0 0 (c.toNat / 16) (c.toNat % 16) h0 h0
        (hexVal_hexDigit _ hdiv) (hexVal_hexDigit _ hmod), ih]
      have hval : ((0 * 16 + 0) * 16 + c.toNat / 16) * 16 + c.toNat % 16 = c.toNat := by
        omega
      rw [Option.map_some']
      simp only [hval, Char.ofNat_toNat]
    · have hform : jsonEscapeChar c = [c] := by
        unfold jsonEscapeChar
        rw [if_neg h1, if_neg h2, if_neg h3, if_neg h4, if_neg h5, if_neg h6, if_neg h7,
          if_neg h8]
      rw [hform, List.singleton_append, unesc_plain c _ h1 h2, ih]
      rfl

theorem escaped_body_inj (s1 s2 r1 r2 : List Char)
    (h : s1.flatMap jsonEscapeChar ++ (quoteChar :: r1) =
      s2.flatMap jsonEscapeChar ++ (quoteChar :: r2)) : s1 = s2 ∧ r1 = r2 := by
  have h2 := congrArg unesc h
  rw [unesc_flatMap, unesc_flatMap] at h2
  simpa using h2

theorem jsonSep_inj : ∀ l1 l2 : List (List Char), jsonSep l1 = jsonSep l2 → l1 = l2
  | [], [], _ => rfl
  | [], s :: t, h => by simp [jsonSep, jsonQuote] at h
  | s :: t, [], h => by simp [jsonSep, jsonQuote] at h
  | s1 :: t1, s2 :: t2, h => by
    simp only [jsonSep, jsonQuote, List.cons_append, List.cons.injEq, true_and] at h
    rw [List.append_assoc, List.append_assoc] at h
    simp only [List.singleton_append] at h
    obtain ⟨hs, ht⟩ := escaped_body_inj _ _ _ _ h
    rw [hs, jsonSep_inj t1 t2 ht]

theorem jsonEncodeStrings_inj (l1 l2 : List (List Char))
    (h : jsonEncodeStrings l1 = jsonEncodeStrings l2) : l1 = l2 := by
  match l1, l2 with
  | [], [] => rfl
  | [], s :: t => simp [jsonEncodeStrings, jsonQuote] at h
  | s :: t, [] => simp [jsonEncodeStrings, jsonQuote] at h
  | s1 :: t1, s2 :: t2 =>
    simp only [jsonEncodeStrings, jsonQuote, List.cons_append, List.cons.injEq,
      true_and] at h
    rw [List.append_assoc, List.append_assoc] at h
    simp only [List.singleton_append] at h
    obtain ⟨hs, ht⟩ := escaped_body_inj _ _ _ _ h
    rw [hs, jsonSep_inj t1 t2 ht]

theorem jsonStringifyStrings_inj (l1 l2 : List String)
    (h : jsonStringifyStrings l1 = jsonStringifyStrings l2) : l1 = l2 := by
  unfold jsonStringifyStrings at h
  have hdata := jsonEncodeStrings_inj _ _ (congrArg String.data h)
  have : l1.map String.data = l2.map String.data → l1 = l2 := by
    intro hm
    have hinj : Function.Injective String.data := fun a b hab => by
      cases a; cases b; cases hab; rfl
    exact List.map_injective_iff.mpr hinj hm
  exact this hdata

/-- The decimal digit of a level in `1..6`:
`toString lv` is the single digit character. -/
theorem toString_level_eq (lv : Int) (h1 : 1 ≤ lv) (h2 : lv ≤ 6) :
    (toString lv).data = [Char.ofNat (48 + lv.toNat)] := by
  interval_cases lv <;> decide

theorem headingPairString_inj (a b : Heading)
    (ha1 : 1 ≤ a.level) (ha2 : a.level ≤ 6) (hb1 : 1 ≤ b.level) (hb2 : b.level ≤ 6)
    (h : headingPairString a = headingPairString b) : a = b := by
  unfold headingPairString at h
  have hd := congrArg String.data h
  rw [String.data_append, String.data_append, String.data_append, String.data_append,
    toString_level_eq a.level ha1 ha2, toString_level_eq b.level hb1 hb2] at hd
  simp only [List.cons_append, List.nil_append, List.cons.injEq] at hd
  obtain ⟨hdig, _, htext⟩ := hd
  have hlv : a.level = b.level := by
    have h1 := ha1; have h2 := ha2; have h3 := hb1; have h4 := hb2
    interval_cases a.level <;> interval_cases b.level <;> simp_all
  have htx : a.heading = b.heading := congrArg String.mk htext
  cases a; cases b
  simp_all

/-- A heading-list signature is injective on lists of headings with
levels in `1..6` — the content of the change-detection claim. -/
theorem headingsSignature_inj (l1 l2 : List Heading)
    (h1 : ∀ h ∈ l1, 1 ≤ h.level ∧ h.level ≤ 6)
    (h2 : ∀ h ∈ l2, 1 ≤ h.level ∧ h.level ≤ 6)
    (h : headingsSignature l1 = headingsSignature l2) : l1 = l2 := by
  unfold headingsSignature at h
  have hmap := jsonStringifyStrings_inj _ _ h
  clear h
  induction l1 generalizing l2 with
  | nil => cases l2 with
    | nil => rfl
    | cons b t2 => simp at hmap
  | cons a t1 ih =>
    cases l2 with
    | nil => simp at hmap
    | cons b t2 =>
      simp only [List.map_cons, List.cons.injEq] at hmap
      obtain ⟨hpair, htail⟩ := hmap
      have ha := h1 a (by simp)
      have hb := h2 b (by simp)
      have hab := headingPairString_inj a b ha.1 ha.2 hb.1 hb.2 hpair
      rw [hab, ih t2 (fun x hx => h1 x (List.mem_cons_of_mem a hx))
        (fun x hx => h2 x (List.mem_cons_of_mem b hx)) htail]

/-!
## The refresh protocol (`refreshTocForPath`)

One live TOC code block is a `TocBlock`: the parsed raw config stored in
`data-sf-toc-config` (the `JSON.stringify`/`JSON.parse` round trip of
`parseConfigFromEl` is modelled by storing the `TocConfig` itself), the
stored signature `data-sf-toc-headings` (`none` before any store, as the
dataset attribute is initially absent), the displayed item structure
(`none` when nothing has been rendered, or when a render failed and left
the container partially built), and the `sf-toc-updating` class.

`refreshTocForPath` for one block splits in time: a synchronous phase
(compute the signature from the notification-time headings, compare,
and on a difference store the new signature and schedule the deferred
render), and — `TOC_TRANSITION_MS` later — the deferred `renderToc`,
which re-reads the headings (possibly changed meanwhile), stores their
filtered signature (source line
`container.dataset.sfTocHeadings = headingsSignature`) and rebuilds the
structure.  `refreshSyncPhase` and `applyRender` model the two phases;
`refreshTocForPath` composes them with explicit notification-time and
render-time heading lists. -/

/-- One live TOC block bound to a document path. -/
structure TocBlock where
  rawConfig : TocConfig
  storedSignature : Option String
  displayed : Option (List TocItem)
  updating : Bool
deriving DecidableEq

/-- The synchronous part of `refreshTocForPath` for one block: recompute
the filtered signature from the notification-time headings; if it equals
the stored one, return unchanged (`return` in the source) and schedule
nothing; otherwise store the new signature, add the `sf-toc-updating`
class, and report that a deferred render is scheduled. -/
def refreshSyncPhase (b : TocBlock) (s : TocPluginSettings) (headings : List Heading) :
    TocBlock × Bool :=
  let normalizedConfig := normalizeConfig b.rawConfig s
  let filtered := filteredHeadings normalizedConfig headings
  let headingsSig := headingsSignature filtered
  if b.storedSignature = some headingsSig then (b, false)
  else ({ b with storedSignature := some headingsSig, updating := true }, true)

/-- The deferred `renderToc` call on a block: normalize the stored raw
config, re-read the headings, store the signature of the filtered set
(this happens before the list is built), then build the items.  On
success the new structure is displayed and the `sf-toc-updating` class
removed (the `.then` callback); on a thrown render error the container is
left partially built (`displayed := none`) and the class stays. -/
def applyRender (b : TocBlock) (s : TocPluginSettings) (headings : List Heading) :
    TocBlock :=
  let config := normalizeConfig b.rawConfig s
  let sig := headingsSignature (filteredHeadings config headings)
  match renderTocItems config headings with
  | some items =>
    { b with storedSignature := some sig, displayed := some items, updating := false }
  | none => { b with storedSignature := some sig, displayed := none }

/-- A full refresh round for one block: the synchronous phase on the
notification-time headings `h`, then — when a render was scheduled — the
deferred render on the render-time headings `hr`. -/
def refreshTocForPath (b : TocBlock) (s : TocPluginSettings)
    (h hr : List Heading) : TocBlock :=
  let sync := refreshSyncPhase b s h
  if sync.2 then applyRender sync.1 s hr else sync.1

/-!
## The inline configuration parser (`parseTocConfig`)

The parser works on JavaScript strings and values; the platform pieces it
uses are modelled here: `split(/\r?\n/)`, `String.prototype.trim`
(ECMAScript `TrimString`, whose whitespace set is `\t \n \v \f \r`,
space, NBSP, the Unicode space separators, the line separators and the
BOM), `indexOf`, `toLowerCase` (the keys routed through it are ASCII),
`replace` of every hyphen, and a dynamically typed parsed value
(`ConfigValue`).  Keys not named in the `TocConfig` type are stored on
the JavaScript object; they are kept in `extra` here.  A literal
`figlet:` config line would overwrite the object's `figlet` field with a
plain value; that assignment is kept in `figletRaw`. -/

/-- The ECMAScript `TrimString` / `\s` whitespace set. -/
def isJsWhitespace (c : Char) : Bool :=
  decide (c = ' ') || decide (c = '\t') || decide (c = '\n') || decide (c = '\r') ||
  decide (c = '\x0b') || decide (c = '\x0c') || decide (c.toNat = 0xa0) ||
  decide (c.toNat = 0x1680) || (decide (0x2000 ≤ c.toNat) && decide (c.toNat ≤ 0x200a)) ||
  decide (c.toNat = 0x2028) || decide (c.toNat = 0x2029) || decide (c.toNat = 0x202f) ||
  decide (c.toNat = 0x205f) || decide (c.toNat = 0x3000) || decide (c.toNat = 0xfeff)

/-- `String.prototype.trim`. -/
def jsTrim (s : String) : String :=
  ⟨((s.data.dropWhile isJsWhitespace).reverse.dropWhile isJsWhitespace).reverse⟩

/-- Split a character list at every delimiter character (JavaScript
`split` on a single-character separator: empty pieces are kept). -/
def splitCharList (p : Char → Bool) : List Char → List (List Char)
  | [] => [[]]
  | c :: rest =>
    let r := splitCharList p rest
    if p c then [] :: r
    else
      match r with
      | [] => [[c]]
      | l :: ls => (c :: l) :: ls

/-- Drop one trailing carriage return. -/
def dropTrailingCR (l : List Char) : List Char :=
  match l.getLast? with
  | some c => if c = '\r' then l.dropLast else l
  | none => l

/-- The line split of `parseTocConfig`: split on `\n`, a directly
preceding `\r` belongs to the delimiter. -/
def splitJsLines (source : String) : List String :=
  (splitCharList (fun c => decide (c = '\n')) source.data).map
    (fun l => ⟨dropTrailingCR l⟩)

/-- `String.prototype.toLowerCase`; the keys the parser feeds it are
ASCII. -/
def asciiToLower (s : String) : String := ⟨s.data.map Char.toLower⟩

/-- `startsWith`, by character prefix. -/
def jsStartsWith (s p : String) : Bool := decide (s.data.take p.data.length = p.data)

/-- The global `replace` removing every hyphen from a figlet key. -/
def removeHyphens (s : String) : String :=
  ⟨s.data.filter (fun c => !decide (c = '-'))⟩

/-- ASCII decimal digit test. -/
def isDigitChar (c : Char) : Bool := decide ('0' ≤ c) && decide (c ≤ '9')

/-- A dynamically typed configuration value, as produced by
`parseConfigValue` (`string | number | boolean | string[]`, plus the
values `JSON.parse` can return on the modelled fragment). -/
inductive ConfigValue where
  | str (s : String)
  | num (q : Rat)
  | bool (b : Bool)
  | arr (xs : List ConfigValue)
  | null

/-- Numeric value of a digit run. -/
def digitsVal (ds : List Char) : Nat :=
  ds.foldl (fun acc c => acc * 10 + (c.toNat - 48)) 0

/-- The rational `±(intPart).(frac)`, built as
`±(intPart·10^k + frac) / 10^k`. -/
def ratOfParts (neg : Bool) (intPart frac : List Char) : Rat :=
  let n : Int := (digitsVal intPart * 10 ^ frac.length + digitsVal frac : Nat)
  mkRat (if neg then -n else n) (10 ^ frac.length)

/-- JSON insignificant whitespace. -/
def skipJsonWs (cs : List Char) : List Char :=
  cs.dropWhile (fun c =>
    decide (c = ' ') || decide (c = '\t') || decide (c = '\n') || decide (c = '\r'))

/-- Modelled: a JSON number without exponent (the fragment the
configuration grammar exercises). -/
def jsonParseNumber (cs : List Char) : Option (ConfigValue × List Char) :=
  let signSplit : Bool × List Char :=
    match cs with
    | c :: rest => if c = '-' then (true, rest) else (false, cs)
    | [] => (false, [])
  let intPart := signSplit.2.takeWhile isDigitChar
  let rest1 := signSplit.2.dropWhile isDigitChar
  if intPart.length = 0 then none
  else
    match rest1 with
    | '.' :: rest2 =>
      let frac := rest2.takeWhile isDigitChar
      let rest3 := rest2.dropWhile isDigitChar
      if frac.length = 0 then none
      else some (ConfigValue.num (ratOfParts signSplit.1 intPart frac), rest3)
    | _ => some (ConfigValue.num (ratOfParts signSplit.1 intPart []), rest1)

mutual

/-- Modelled: `JSON.parse` value parsing restricted to the fragment the
configuration grammar consumes — strings (with the escapes of `unesc`),
decimal numbers without exponent, `true`/`false`/`null` and arrays of
these; objects are outside the fragment (their parse fails, and
`parseConfigValue` falls back to the literal string). -/
def jsonParseValue : Nat → List Char → Option (ConfigValue × List Char)
  | 0, _ => none
  | fuel + 1, cs0 =>
    let cs := skipJsonWs cs0
    match cs with
    | [] => none
    | c :: rest =>
      if c = quoteChar then
        (unesc rest).map (fun p => (ConfigValue.str ⟨p.1⟩, p.2))
      else if c = '[' then
        let rest1 := skipJsonWs rest
        match rest1 with
        | ']' :: rest2 => some (ConfigValue.arr [], rest2)
        | _ => (jsonParseElems fuel rest1).map (fun p => (ConfigValue.arr p.1, p.2))
      else if c = 't' then
        if rest.take 3 = ['r', 'u', 'e'] then some (ConfigValue.bool true, rest.drop 3)
        else none
      else if c = 'f' then
        if rest.take 4 = ['a', 'l', 's', 'e'] then some (ConfigValue.bool false, rest.drop 4)
        else none
      else if c = 'n' then
        if rest.take 3 = ['u', 'l', 'l'] then some (ConfigValue.null, rest.drop 3)
        else none
      else jsonParseNumber cs

/-- The elements of a non-empty JSON array, after the opening bracket. -/
def jsonParseElems : Nat → List Char → Option (List ConfigValue × List Char)
  | 0, _ => none
  | fuel + 1, cs =>
    match jsonParseValue fuel cs with
    | none => none
    | some (v, rest) =>
      let rest1 := skipJsonWs rest
      match rest1 with
      | ',' :: rest2 => (jsonParseElems fuel rest2).map (fun p => (v :: p.1, p.2))
      | ']' :: rest2 => some ([v], rest2)
      | _ => none

end

/-- Modelled: `JSON.parse` on the fragment of `jsonParseValue`, requiring
the whole input to be consumed. -/
def jsonParse (s : String) : Option ConfigValue :=
  match jsonParseValue (s.data.length + 1) s.data with
  | some (v, rest) => if skipJsonWs rest = [] then some v else none
  | none => none

mutual

/-- Modelled: JavaScript `String(value)`; arrays join their elements with
`,` as in `Array.prototype.toString`; integer numbers print in decimal
(non-integer formatting is not exercised by the claims). -/
def jsToString : ConfigValue → String
  | .str s => s
  | .num q => if q.den = 1 then toString q.num else toString q
  | .bool b => if b then "true" else "false"
  | .arr xs => String.intercalate (",") (jsToStringList xs)
  | .null => "null"

/-- `String(value)` on each element of an array value. -/
def jsToStringList : List ConfigValue → List String
  | [] => []
  | v :: vs => jsToString v :: jsToStringList vs

end

/-- Modelled: `parseFloat`, restricted to an optional sign and a decimal
significand without exponent; `none` models the `NaN` result. -/
def jsParseFloat (s : String) : Option Rat :=
  let cs := s.data.dropWhile isJsWhitespace
  let signSplit : Bool × List Char :=
    match cs with
    | c :: rest =>
      if c = '-' then (true, rest) else if c = '+' then (false, rest) else (false, cs)
    | [] => (false, [])
  let intPart := signSplit.2.takeWhile isDigitChar
  let rest1 := signSplit.2.dropWhile isDigitChar
  match rest1 with
  | '.' :: rest2 =>
    let frac := rest2.takeWhile isDigitChar
    if intPart.length = 0 ∧ frac.length = 0 then none
    else some (ratOfParts signSplit.1 intPart frac)
  | _ => if intPart.length = 0 then none else some (ratOfParts signSplit.1 intPart [])

/-- `parseColors`: split on runs of commas/whitespace, trim, drop
empties (splitting on single delimiters then dropping empties is
equivalent to splitting on runs). -/
def parseColors (value : String) : List String :=
  (((splitCharList (fun c => decide (c = ',') || isJsWhitespace c) value.data).map
    (fun l => jsTrim ⟨l⟩)).filter (fun c => 0 < c.length))

/-- The test `/^-?\d+(\.\d+)?$/.test(raw)`. -/
def isJsNumericLiteral (s : String) : Bool :=
  let cs : List Char :=
    match s.data with
    | c :: rest => if c = '-' then rest else s.data
    | [] => []
  let intPart := cs.takeWhile isDigitChar
  let rest := cs.dropWhile isDigitChar
  decide (0 < intPart.length) &&
    (decide (rest = []) ||
      (match rest with
       | c :: rest2 => decide (c = '.') && decide (0 < rest2.length) && rest2.all isDigitChar
       | [] => false))

/-- `Number(raw)` on a string matching `/^-?\d+(\.\d+)?$/`. -/
def parseJsNumber (s : String) : Rat :=
  let signSplit : Bool × List Char :=
    match s.data with
    | c :: rest => if c = '-' then (true, rest) else (false, s.data)
    | [] => (false, [])
  let intPart := signSplit.2.takeWhile isDigitChar
  let rest := signSplit.2.dropWhile isDigitChar
  match rest with
  | '.' :: rest2 => ratOfParts signSplit.1 intPart (rest2.takeWhile isDigitChar)
  | _ => ratOfParts signSplit.1 intPart []

/-- `raw.replace(/^['"]|['"]$/g, "")`: drop one leading quote character
and one trailing quote character, each independently when present. -/
def stripSurroundingQuotes (raw : String) : String :=
  let cs := raw.data
  let cs1 : List Char :=
    match cs with
    | c :: rest => if c = apostropheChar ∨ c = quoteChar then rest else cs
    | [] => []
  let cs2 : List Char :=
    match cs1.getLast? with
    | some c => if c = apostropheChar ∨ c = quoteChar then cs1.dropLast else cs1
    | none => cs1
  ⟨cs2⟩

/-- `parseConfigValue` from the source: structured values starting with
`[` or `{` go through `JSON.parse` with a fall-back to the literal
string; then case-insensitive booleans; then the numeric literal
pattern; otherwise the value with surrounding quotes stripped. -/
def parseConfigValue (raw : String) : ConfigValue :=
  if jsStartsWith raw ("[") ∨ jsStartsWith raw ("\x7b") then
    match jsonParse raw with
    | some v => v
    | none => ConfigValue.str raw
  else
    let lowered := asciiToLower raw
    if lowered = "true" then ConfigValue.bool true
    else if lowered = "false" then ConfigValue.bool false
    else if isJsNumericLiteral raw then ConfigValue.num (parseJsNumber raw)
    else ConfigValue.str (stripSurroundingQuotes raw)

/-- The parsed raw configuration as built by `parseTocConfig`: the
`TocConfig` fields hold the dynamically typed assigned values; unknown
keys land on the object (`extra`, last write wins); a `figlet:` config
line's plain value lands in `figletRaw`. -/
structure ParsedTocConfig where
  title : Option ConfigValue := none
  minLevel : Option ConfigValue := none
  maxLevel : Option ConfigValue := none
  numbered : Option ConfigValue := none
  shapes : Option ConfigValue := none
  remove_chars : Option ConfigValue := none
  figlet : Option TocFigletConfig := none
  figletRaw : Option ConfigValue := none
  extra : List (String × ConfigValue) := []

/-- `(config as Record<string, unknown>)[key] = value`. -/
def setConfigKey (c : ParsedTocConfig) (key : String) (v : ConfigValue) : ParsedTocConfig :=
  if key = "title" then { c with title := some v }
  else if key = "minLevel" then { c with minLevel := some v }
  else if key = "maxLevel" then { c with maxLevel := some v }
  else if key = "numbered" then { c with numbered := some v }
  else if key = "shapes" then { c with shapes := some v }
  else if key = "remove_chars" then { c with remove_chars := some v }
  else if key = "figlet" then { c with figletRaw := some v }
  else { c with extra := (c.extra.filter (fun p => !(p.1 = key : Bool))) ++ [(key, v)] }

/-- Modelled: the unchecked `value as string[]` cast on the `colors`
value — string elements of an array are kept, anything else contributes
nothing. -/
def castStringArray : ConfigValue → List String
  | .arr xs => xs.filterMap (fun v => match v with | ConfigValue.str s => some s | _ => none)
  | _ => []

/-- The boolean coercion of the `centered`/`multicenter` options:
`value === true || String(value).toLowerCase() === "true"`. -/
def jsBooleanish (value : ConfigValue) : Bool :=
  (match value with
    | ConfigValue.bool true => true
    | _ => false) ||
  (asciiToLower (jsToString value) == "true")

/-- The `switch (figletKey)` of `parseTocConfig` routing a `figlet-*`
option into the figlet configuration. -/
def applyFigletKey (f : TocFigletConfig) (figletKey : String) (value : ConfigValue) :
    TocFigletConfig :=
  if figletKey = "font" then { f with font := some (jsToString value) }
  else if figletKey = "color" then { f with color := some (jsToString value) }
  else if figletKey = "colors" then
    { f with colors := some (match value with
        | ConfigValue.str s => parseColors s
        | v => castStringArray v) }
  else if figletKey = "fontsize" then
    { f with fontSize := some (match value with
        | ConfigValue.num n => some n
        | v => jsParseFloat (jsToString v)) }
  else if figletKey = "lineheight" then
    { f with lineHeight := some (match value with
        | ConfigValue.num n => some n
        | v => jsParseFloat (jsToString v)) }
  else if figletKey = "centered" then
    { f with centered := some (jsBooleanish value) }
  else if figletKey = "opacity" then
    { f with opacity := some (match value with
        | ConfigValue.num n => some n
        | v => jsParseFloat (jsToString v)) }
  else if figletKey = "multicenter" then
    { f with multiCenter := some (jsBooleanish value) }
  else f

/-- One iteration of the `for (const line of configLines)` loop. -/
def parseConfigLine (acc : ParsedTocConfig × TocFigletConfig) (line : String) :
    ParsedTocConfig × TocFigletConfig :=
  let trimmed := jsTrim line
  if trimmed.length = 0 then acc
  else if jsStartsWith trimmed ("#") then acc
  else
    match trimmed.data.findIdx? (fun c => decide (c = ':')) with
    | none => acc
    | some separatorIndex =>
      let key := jsTrim ⟨trimmed.data.take separatorIndex⟩
      let rawValue := jsTrim ⟨trimmed.data.drop (separatorIndex + 1)⟩
      if key.length = 0 ∨ rawValue.length = 0 then acc
      else if jsStartsWith key ("figlet-") then
        let figletKey := removeHyphens (asciiToLower ⟨key.data.drop 7⟩)
        (acc.1, applyFigletKey acc.2 figletKey (parseConfigValue rawValue))
      else (setConfigKey acc.1 key (parseConfigValue rawValue), acc.2)

/-- JavaScript truthiness of `figletConfig.text` (`undefined` and the
empty string are falsy; the parser only ever stores non-empty text). -/
def figletTextTruthy : Option String → Bool
  | none => false
  | some t => decide (0 < t.length)

/-- `parseTocConfig` from the source: find the first `---` line
(`findIndex`, `-1` when absent); when its index is positive the config
section is the lines before it, otherwise all lines; parse the config
lines; when the separator index is positive and not the last line, the
lines after it joined with `\n` and trimmed become the figlet text if
non-empty; the figlet configuration is attached only when it has text. -/
def parseTocConfig (source : String) : ParsedTocConfig :=
  let lines := splitJsLines source
  let separatorLineIndex : Int :=
    match lines.findIdx? (fun line => jsTrim line == "---") with
    | some i => (i : Int)
    | none => -1
  let configLines := if 0 < separatorLineIndex then lines.take separatorLineIndex.toNat
    else lines
  let parsed := configLines.foldl parseConfigLine ({}, {})
  let figletConfig :=
    if 0 < separatorLineIndex ∧ separatorLineIndex < (lines.length : Int) - 1 then
      let figletText := jsTrim (String.intercalate "\n"
        (lines.drop (separatorLineIndex.toNat + 1)))
      if 0 < figletText.length then { parsed.2 with text := some figletText }
      else parsed.2
    else parsed.2
  if figletTextTruthy figletConfig.text then { parsed.1 with figlet := some figletConfig }
  else parsed.1

/-!
## Supporting lemmas for the claims
-/

theorem refreshSyncPhase_rawConfig (b : TocBlock) (s : TocPluginSettings)
    (h : List Heading) : (refreshSyncPhase b s h).1.rawConfig = b.rawConfig := by
  unfold refreshSyncPhase
  dsimp only
  split <;> rfl

/-- When every parsed class member is a single character, the parse is
the per-token singleton list (no range branch was ever taken). -/
theorem parseClassItems_singles (toks : List RTok) (citems : List ClassItem)
    (hp : parseClassItems toks = some citems)
    (hs : ∀ it ∈ citems, ∃ c, it = ClassItem.single c) :
    citems = toks.map (fun t => ClassItem.single t.char) := by
  induction toks using parseClassItems.induct generalizing citems with
  | case1 =>
    simp only [parseClassItems, Option.some.injEq] at hp
    subst hp
    rfl
  | case2 a =>
    simp only [parseClassItems, Option.some.injEq] at hp
    subst hp
    rfl
  | case3 a b ih =>
    simp only [parseClassItems, Option.map_some', Option.some.injEq] at hp
    subst hp
    rfl
  | case4 a b rest hle ih =>
    have hp2 : (parseClassItems rest).map
        (fun l => ClassItem.range a.char b.char :: l) = some citems := by
      simpa [parseClassItems, hle] using hp
    cases hr : parseClassItems rest with
    | none => rw [hr] at hp2; simp at hp2
    | some l =>
      rw [hr] at hp2
      simp only [Option.map_some', Option.some.injEq] at hp2
      obtain ⟨c, hc⟩ := hs (ClassItem.range a.char b.char) (hp2 ▸ List.mem_cons_self _ _)
      exact absurd hc (by simp)
  | case5 a b rest hle =>
    simp [parseClassItems, hle] at hp
  | case6 a b' b rest hdash ih =>
    simp only [parseClassItems, if_neg hdash] at hp
    cases hr : parseClassItems (b' :: b :: rest) with
    | none => rw [hr] at hp; simp at hp
    | some l =>
      rw [hr] at hp
      simp only [Option.map_some', Option.some.injEq] at hp
      subst hp
      have := ih l hr (fun it hit => hs it (by simp [hit]))
      simp_all

/-- The token characters of the built class are exactly the characters
of the non-empty `remove_chars` entries, in order. -/
theorem classTokens_chars (chars : List String) :
    (classTokens chars).map RTok.char =
      (chars.filter (fun s => 0 < s.length)).flatMap String.data := by
  unfold classTokens
  rw [List.map_flatMap]
  refine List.flatMap_congr (fun s _ => ?_)
  rw [List.map_map]
  have : (RTok.char ∘ fun c => if c ∈ regexSpecials then RTok.esc c else RTok.raw c) =
      fun c => c := by
    funext c
    simp only [Function.comp_apply]
    split_ifs <;> rfl
  rw [this, List.map_id']

/-- Matching a singles-only class is membership in its character list. -/
theorem classMatches_singles (xs : List Char) (c : Char) :
    classMatches (xs.map (fun a => ClassItem.single a)) c = decide (c ∈ xs) := by
  induction xs with
  | nil => rfl
  | cons a t ih =>
    simp only [List.map_cons, classMatches, List.any_cons] at ih ⊢
    rw [ih]
    by_cases hca : c = a <;> simp [hca]

/-!
## The claims
-/

/-- **C1.**  For every raw config (whose `minLevel`/`maxLevel` fields are
numbers or absent) and every defaults source, the normalized config
satisfies `1 ≤ minLevel ≤ maxLevel ≤ 6`: each level is first clamped
independently to `[1, 6]`, then the two are swapped if
`minLevel > maxLevel`. -/
theorem toc_C1_normalize_level_invariant (config : TocConfig) (s : TocPluginSettings) :
    1 ≤ (normalizeConfig config s).minLevel ∧
      (normalizeConfig config s).minLevel ≤ (normalizeConfig config s).maxLevel ∧
      (normalizeConfig config s).maxLevel ≤ 6 := by
  unfold normalizeConfig
  have h1 := clampLevel_bounds (config.minLevel.getD (getDefaults s).minLevel)
  have h2 := clampLevel_bounds (config.maxLevel.getD (getDefaults s).maxLevel)
  dsimp only
  split_ifs with h <;> dsimp only at h ⊢ <;> omega

/-- **C2 (amended).**  Provided the removal-pattern construction succeeds
(`patternOk` — the built character class has no out-of-order range), the
rendered list contains exactly one item per input heading whose level
satisfies `minLevel ≤ level ≤ maxLevel`, in the original document order,
with no omissions, duplications or reorderings: the items' `(level,
anchor)` sequence equals the filtered headings' `(level, "#" + heading)`
sequence. -/
theorem toc_C2_filter_one_item_per_heading (config : NormalizedTocConfig)
    (headings : List Heading) (hok : patternOk config.remove_chars = true) :
    ∃ items, renderTocItems config headings = some items ∧
      items.map (fun it => (it.level, it.href)) =
        (filteredHeadings config headings).map (fun h => (h.level, "#" ++ h.heading)) := by
  obtain ⟨items, hrun, hlvl, _, _⟩ :=
    renderLoop_spec config hok (filteredHeadings config headings)
      (initialLoopState config) (by simp [initialLoopState])
  exact ⟨items, hrun, hlvl⟩

/-- **C2 witness.**  The theorem applied to the default configuration
and the headings `[H1 "A", H7 "B"]` (the second is out of range). -/
theorem toc_C2_witness :
    patternOk (normalizeConfig {} DEFAULT_SETTINGS).remove_chars = true ∧
    ∃ items, renderTocItems (normalizeConfig {} DEFAULT_SETTINGS)
        [{ heading := "A", level := 1 }, { heading := "B", level := 7 }] = some items ∧
      items.map (fun it => (it.level, it.href)) = [((1 : Int), "#A")] := by
  refine ⟨rfl, ?_⟩
  obtain ⟨items, hrun, hmap⟩ := toc_C2_filter_one_item_per_heading
    (normalizeConfig {} DEFAULT_SETTINGS)
    [{ heading := "A", level := 1 }, { heading := "B", level := 7 }] rfl
  exact ⟨items, hrun, hmap.trans (by rfl)⟩

/-- **C2 counterexample.**  With `remove_chars = ["z", "-", "a"]` the
built class is `[z-a]`, an out-of-order range: the `RegExp` constructor
throws, the whole render aborts into the error block, and no item is
produced although exactly one heading is in range — refuting the claim
as universally stated. -/
theorem toc_C2_counterexample :
    (filteredHeadings (normalizeConfig { remove_chars := some ["z", "-", "a"] }
        DEFAULT_SETTINGS) [{ heading := "A", level := 1 }]).length = 1 ∧
    renderTocItems (normalizeConfig { remove_chars := some ["z", "-", "a"] }
        DEFAULT_SETTINGS) [{ heading := "A", level := 1 }] = none := ⟨rfl, rfl⟩

/-- **C3.**  Numbered labels are the per-depth counter sequence joined
with `.` (deeper counters dropped before incrementing): for the heading
sequence `[H1 "A", H2 "B", H2 "C", H1 "D", H2 "E"]` with `minLevel = 1`
and `numbered = true` the labels are exactly `1, 1.1, 1.2, 2, 2.1`. -/
theorem toc_C3_numbering_example :
    (renderTocItems (normalizeConfig { minLevel := some 1, numbered := some true }
        DEFAULT_SETTINGS)
        [{ heading := "A", level := 1 }, { heading := "B", level := 2 },
         { heading := "C", level := 2 }, { heading := "D", level := 1 },
         { heading := "E", level := 2 }]).map
      (fun items => items.map (fun it => it.numberLabel)) =
      some [some "1", some "1.1", some "1.2", some "2", some "2.1"] := rfl

/-- **C10.**  In numbered mode a depth skip initializes the intermediate
per-depth counters to `0`, and they appear in the joined label: for
`[H1, H3]` with `minLevel = 1` the labels are `1` and `1.0.1`. -/
theorem toc_C10_skipped_depth_zero_segment :
    (renderTocItems (normalizeConfig { minLevel := some 1, numbered := some true }
        DEFAULT_SETTINGS)
        [{ heading := "H1", level := 1 }, { heading := "H3", level := 3 }]).map
      (fun items => items.map (fun it => it.numberLabel)) =
      some [some "1", some "1.0.1"] := rfl

/-- The spec's description of character stripping (refinement reference,
from the claim's words, not from the source): the displayed text is the
heading text with exactly the characters listed in `remove_chars`
removed, each entry treated as a literal single character, no other
characters affected. -/
def stripCharsSpec (text : String) (chars : List String) : String :=
  ⟨text.data.filter (fun c => !(chars.contains (String.singleton c)))⟩

/-- **C4 counterexample.**  `remove_chars = ["a", "-", "z"]` on the
heading `"b"`: the `-` entry is not escaped (it is not in the escape
set), so the class is the range `[a-z]`, and the rendered item displays
`""` — the unlisted character `b` was removed, while the claim's literal
stripping leaves `"b"` unchanged.  (The anchor still uses the original
text.) -/
theorem toc_C4_counterexample :
    renderTocItems (normalizeConfig { remove_chars := some ["a", "-", "z"] }
        DEFAULT_SETTINGS) [{ heading := "b", level := 1 }] =
      some [{ level := 1, numberLabel := none, shapeMarker := none, displayText := "",
              href := "#b" }] ∧
    stripCharsSpec ("b") ["a", "-", "z"] = "b" ∧ ("b" : String) ≠ ("" : String) :=
  ⟨rfl, rfl, by decide⟩

/-- **C4 (amended).**  Provided the built character class parses into
single-character atoms only (no unescaped `-` falls between two atoms to
form a range), the displayed text is the heading text with exactly the
characters of the non-empty `remove_chars` entries removed and no other
characters affected; and in every successful render the items display
the stripped text while their navigation anchor is `"#" + ` the
original, unstripped heading text. -/
theorem toc_C4_strip_display_anchor (chars : List String) (citems : List ClassItem)
    (hparse : parseClassItems (classTokens chars) = some citems)
    (hsingles : ∀ it ∈ citems, ∃ c, it = ClassItem.single c) :
    (∀ text : String, stripChars text chars =
      some ⟨text.data.filter (fun c =>
        !decide (c ∈ (chars.filter (fun s => 0 < s.length)).flatMap String.data))⟩) ∧
    (∀ (config : NormalizedTocConfig) (headings : List Heading) (items : List TocItem),
      config.remove_chars = chars → renderTocItems config headings = some items →
        items.map (fun it => some it.displayText) =
          (filteredHeadings config headings).map
            (fun h => stripChars h.heading chars) ∧
        items.map (fun it => it.href) =
          (filteredHeadings config headings).map (fun h => "#" ++ h.heading)) := by
  have hcits := parseClassItems_singles _ _ hparse hsingles
  have hmatch : ∀ c : Char, classMatches citems c =
      decide (c ∈ (chars.filter (fun s => 0 < s.length)).flatMap String.data) := by
    intro c
    rw [hcits]
    have : (classTokens chars).map (fun t => ClassItem.single t.char) =
        ((classTokens chars).map RTok.char).map (fun a => ClassItem.single a) := by
      rw [List.map_map]
      rfl
    rw [this, classMatches_singles, classTokens_chars]
  have hok : patternOk chars = true := by
    unfold patternOk
    rw [hparse]
    rfl
  constructor
  · intro text
    unfold stripChars
    split_ifs with hempty hnonempty
    · have : chars = [] := List.length_eq_zero.mp hempty
      subst this
      simp
    · have : chars.filter (fun s => 0 < s.length) = [] :=
        List.length_eq_zero.mp hnonempty
      rw [this]
      simp
    · rw [hparse]
      simp only [Option.some.injEq]
      congr 1
      refine List.filter_congr (fun c _ => ?_)
      rw [hmatch c]
  · intro config headings items hchars hrun
    obtain ⟨items2, hrun2, hlvl, hdisp, _⟩ :=
      renderLoop_spec config (hchars ▸ hok) (filteredHeadings config headings)
        (initialLoopState config) (by simp [initialLoopState])
    have hsame : items = items2 := by
      have : renderTocItems config headings = some items2 := hrun2
      rw [hrun] at this
      exact (Option.some.injEq _ _).mp this
    subst hsame
    refine ⟨hchars ▸ hdisp, ?_⟩
    have := congrArg (List.map Prod.snd) hlvl
    simpa [List.map_map, Function.comp] using this

/-- **C4 witness.**  `remove_chars = ["#"]` on `"Intro #1"`: the class
is the escaped single `[\#]`; the theorem applied there gives display
`"Intro 1"` and the anchor of a rendered item `"#Intro #1"`. -/
theorem toc_C4_witness :
    parseClassItems (classTokens ["#"]) = some [ClassItem.single '#'] ∧
    stripChars ("Intro #1") ["#"] = some ("Intro 1") ∧
    (∃ items, renderTocItems (normalizeConfig { remove_chars := some ["#"] }
        DEFAULT_SETTINGS) [{ heading := "Intro #1", level := 1 }] = some items ∧
      items.map (fun it => some it.displayText) = [some "Intro 1"] ∧
      items.map (fun it => it.href) = ["#Intro #1"]) := by
  have h := toc_C4_strip_display_anchor ["#"] [ClassItem.single '#'] rfl
    (by intro it hit; simp at hit; exact ⟨'#', hit⟩)
  refine ⟨rfl, ?_, ?_⟩
  · rw [h.1 ("Intro #1")]
    rfl
  · cases hrun : renderTocItems (normalizeConfig { remove_chars := some ["#"] }
        DEFAULT_SETTINGS) [{ heading := "Intro #1", level := 1 }] with
    | none => exact absurd hrun (by decide)
    | some items =>
      obtain ⟨hd, ha⟩ := h.2 (normalizeConfig { remove_chars := some ["#"] }
        DEFAULT_SETTINGS) [{ heading := "Intro #1", level := 1 }] items rfl hrun
      exact ⟨items, rfl, hd.trans (by rfl), ha.trans (by rfl)⟩

/-- A successful `stripChars` call means the removal pattern was
constructible. -/
theorem stripChars_some_patternOk (text : String) (chars : List String)
    (h : (stripChars text chars).isSome) : patternOk chars = true := by
  unfold stripChars at h
  unfold patternOk
  split_ifs at h with h1 h2
  · have : chars = [] := List.length_eq_zero.mp h1
    subst this
    rfl
  · have h3 : chars.filter (fun char => 0 < char.length) = [] :=
      List.length_eq_zero.mp h2
    unfold classTokens
    rw [h3]
    rfl
  · cases hp : parseClassItems (classTokens chars) with
    | none => rw [hp] at h; simp at h
    | some l => rfl

/-- A successful run of the loop on a non-empty heading list implies the
first heading's `stripChars` call succeeded. -/
theorem renderLoop_cons_strip (config : NormalizedTocConfig) (h : Heading)
    (t : List Heading) (st : LoopState) (items : List TocItem)
    (hne : st.stack ≠ []) (hrun : renderLoop config (h :: t) st = some items) :
    (stripChars h.heading config.remove_chars).isSome := by
  have hdesc := descend_stack_ne h.level st.lastItem st.stack st.currentLevel hne
  have hasc := ascend_stack_ne h.level
    (descend h.level st.lastItem st.stack st.currentLevel).1
    (descend h.level st.lastItem st.stack st.currentLevel).2 hdesc
  cases hstk : (ascend h.level (descend h.level st.lastItem st.stack st.currentLevel).1
      (descend h.level st.lastItem st.stack st.currentLevel).2).1 with
  | nil => exact absurd hstk hasc
  | cons top restStack =>
    cases hsc : stripChars h.heading config.remove_chars with
    | some d => rfl
    | none =>
      rw [renderLoop, hsc, hstk] at hrun
      simp only [List.head?_cons] at hrun
      exact absurd hrun (by simp)

/-- **C9.**  When `numbered` is false and `shapes` is non-empty, the
i-th rendered item (0-based, in document order, regardless of level)
receives the marker `shapes[i % shapes.length]` — a single flat counter
incremented once per item. -/
theorem toc_C9_flat_shape_cycling (config : NormalizedTocConfig)
    (headings : List Heading) (items : List TocItem)
    (hnum : config.numbered = false) (hsh : config.shapes ≠ [])
    (hrun : renderTocItems config headings = some items) :
    items.map (fun it => it.shapeMarker) =
      (List.range items.length).map
        (fun i => config.shapes[i % config.shapes.length]?) := by
  unfold renderTocItems at hrun
  cases hfil : filteredHeadings config headings with
  | nil =>
    rw [hfil] at hrun
    simp only [renderLoop, Option.some.injEq] at hrun
    subst hrun
    rfl
  | cons hh ht =>
    rw [hfil] at hrun
    have hok : patternOk config.remove_chars = true :=
      stripChars_some_patternOk hh.heading config.remove_chars
        (renderLoop_cons_strip config hh ht (initialLoopState config) items
          (by simp [initialLoopState]) hrun)
    obtain ⟨items2, hrun2, hlvl, _, hshape⟩ :=
      renderLoop_spec config hok (hh :: ht) (initialLoopState config)
        (by simp [initialLoopState])
    have hsame : items = items2 := by
      rw [hrun] at hrun2
      exact (Option.some.injEq _ _).mp hrun2
    subst hsame
    have hlen : items.length = (hh :: ht).length := by
      have := congrArg List.length hlvl
      simpa using this
    rw [hlen, hshape hnum hsh]
    simp [initialLoopState]

/-- **C9 witness.**  `shapes = [">", "-"]` and five in-range headings of
mixed levels: the markers are `>, -, >, -, >` in document order. -/
theorem toc_C9_witness :
    renderTocItems (normalizeConfig { shapes := some [">", "-"] } DEFAULT_SETTINGS)
        [⟨"A", 1⟩, ⟨"B", 2⟩, ⟨"C", 2⟩, ⟨"D", 1⟩, ⟨"E", 2⟩] =
      some [⟨1, none, some ">", "A", "#A"⟩, ⟨2, none, some "-", "B", "#B"⟩,
            ⟨2, none, some ">", "C", "#C"⟩, ⟨1, none, some "-", "D", "#D"⟩,
            ⟨2, none, some ">", "E", "#E"⟩] ∧
    ([⟨1, none, some ">", "A", "#A"⟩, ⟨2, none, some "-", "B", "#B"⟩,
      ⟨2, none, some ">", "C", "#C"⟩, ⟨1, none, some "-", "D", "#D"⟩,
      ⟨2, none, some ">", "E", "#E"⟩] : List TocItem).map (fun it => it.shapeMarker) =
      [some ">", some "-", some ">", some "-", some ">"] := by
  refine ⟨rfl, ?_⟩
  exact (toc_C9_flat_shape_cycling
    (normalizeConfig { shapes := some [">", "-"] } DEFAULT_SETTINGS)
    [⟨"A", 1⟩, ⟨"B", 2⟩, ⟨"C", 2⟩, ⟨"D", 1⟩, ⟨"E", 2⟩]
    [⟨1, none, some ">", "A", "#A"⟩, ⟨2, none, some "-", "B", "#B"⟩,
     ⟨2, none, some ">", "C", "#C"⟩, ⟨1, none, some "-", "D", "#D"⟩,
     ⟨2, none, some ">", "E", "#E"⟩] rfl (by decide) rfl).trans (by rfl)

/-- **C5.**  When the first line whose trimmed content is exactly `---`
sits at line index `k > 0`, it is the separator: the config section is
exactly the lines before it, and everything after it — joined back with
newlines and trimmed — becomes the decorative (figlet) text when and
only when it is non-empty and not past the last line, the figlet config
being attached exactly when it has text. -/
theorem toc_C5_separator_split (source : String) (k : Nat)
    (hk : (splitJsLines source).findIdx? (fun line => jsTrim line == "---") = some k)
    (h0 : 0 < k) :
    parseTocConfig source =
      (let lines := splitJsLines source
       let parsed := (lines.take k).foldl parseConfigLine ({}, {})
       let figletConfig :=
         if (k : Int) < (lines.length : Int) - 1 then
           let figletText := jsTrim (String.intercalate "\n" (lines.drop (k + 1)))
           if 0 < figletText.length then { parsed.2 with text := some figletText }
           else parsed.2
         else parsed.2
       if figletTextTruthy figletConfig.text then { parsed.1 with figlet := some figletConfig }
       else parsed.1) := by
  unfold parseTocConfig
  dsimp only
  rw [hk]
  have hpos : (0 : Int) < (k : Int) := by exact_mod_cast h0
  simp only [hpos, if_true, true_and, Int.toNat_natCast]

/-- **C5 witness.**  The theorem applied at
`"minLevel: 2\n---\nHello\nWorld"` (separator at index 1), whose parse
is `{minLevel: 2, figlet.text: "Hello\nWorld"}`. -/
theorem toc_C5_witness :
    parseTocConfig ("minLevel: 2\n---\nHello\nWorld") =
      { minLevel := some (ConfigValue.num 2)
        figlet := some { text := some "Hello\nWorld" } } ∧
    (splitJsLines ("minLevel: 2\n---\nHello\nWorld")).findIdx?
      (fun line => jsTrim line == "---") = some 1 := by
  constructor
  · rw [toc_C5_separator_split ("minLevel: 2\n---\nHello\nWorld") 1 rfl (by decide)]
    rfl
  · rfl

/-- **C6.**  A change notification whose recomputed filtered-heading
signature equals the stored one is an idempotent no-op: no re-render is
scheduled and the block — its displayed structure and its stored
signature — is entirely unchanged. -/
theorem toc_C6_equal_signature_noop (b : TocBlock) (s : TocPluginSettings)
    (h hr : List Heading)
    (heq : b.storedSignature =
      some (headingsSignature (filteredHeadings (normalizeConfig b.rawConfig s) h))) :
    refreshTocForPath b s h hr = b := by
  unfold refreshTocForPath refreshSyncPhase
  dsimp only
  rw [if_pos heq]
  rfl

/-- **C6 witness.**  A block whose stored signature already matches the
current headings `[H1 "A"]` passes through a refresh unchanged. -/
theorem toc_C6_witness :
    refreshTocForPath
      ⟨{}, some "[\"1:A\"]", some [⟨1, none, none, "A", "#A"⟩], false⟩
      DEFAULT_SETTINGS [⟨"A", 1⟩] [⟨"A", 1⟩] =
      ⟨{}, some "[\"1:A\"]", some [⟨1, none, none, "A", "#A"⟩], false⟩ :=
  toc_C6_equal_signature_noop _ _ _ _ (by rfl)

/-- **C7 counterexample.**  The synchronous phase of a refresh stores
the new signature *before* any render: starting from a block that has
never rendered (`displayed = none`, no stored signature), one
notification for `[H1 "A"]` leaves the stored signature updated to the
new value while the displayed structure is still untouched and the
render is still pending — the signature is stored speculatively, ahead
of the structure, refuting the claim as stated. -/
theorem toc_C7_counterexample :
    (refreshSyncPhase ⟨{}, none, none, false⟩ DEFAULT_SETTINGS
        [⟨"A", 1⟩]).1.storedSignature = some "[\"1:A\"]" ∧
    (refreshSyncPhase ⟨{}, none, none, false⟩ DEFAULT_SETTINGS
        [⟨"A", 1⟩]).1.displayed = none ∧
    (refreshSyncPhase ⟨{}, none, none, false⟩ DEFAULT_SETTINGS
        [⟨"A", 1⟩]).2 = true :=
  ⟨rfl, rfl, rfl⟩

/-- **C7 (amended).**  The signature is stored speculatively when the
refresh is scheduled, and again inside the deferred render before the
structure is built; but after a render that completes, the stored
signature equals exactly the signature of the filtered set of the
headings that were rendered, the rendered items are displayed, and the
updating cue is removed. -/
theorem toc_C7_signature_after_completed_render (b : TocBlock)
    (s : TocPluginSettings) (h hr : List Heading) (items : List TocItem)
    (hpend : (refreshSyncPhase b s h).2 = true)
    (hrender : renderTocItems (normalizeConfig b.rawConfig s) hr = some items) :
    (refreshTocForPath b s h hr).storedSignature =
      some (headingsSignature (filteredHeadings (normalizeConfig b.rawConfig s) hr)) ∧
    (refreshTocForPath b s h hr).displayed = some items ∧
    (refreshTocForPath b s h hr).updating = false := by
  unfold refreshTocForPath
  dsimp only
  rw [if_pos hpend]
  unfold applyRender
  dsimp only
  rw [refreshSyncPhase_rawConfig, hrender]
  exact ⟨rfl, rfl, rfl⟩

/-- **C7 witness.**  A first refresh of a never-rendered block on
`[H1 "A"]`, rendered against the (changed) headings `[H2 "B"]`: the
final signature is the one of the rendered set `[H2 "B"]`. -/
theorem toc_C7_witness :
    (refreshTocForPath ⟨{}, none, none, false⟩ DEFAULT_SETTINGS [⟨"A", 1⟩]
        [⟨"B", 2⟩]).storedSignature = some "[\"2:B\"]" ∧
    (refreshTocForPath ⟨{}, none, none, false⟩ DEFAULT_SETTINGS [⟨"A", 1⟩]
        [⟨"B", 2⟩]).displayed = some [⟨2, none, none, "B", "#B"⟩] ∧
    (refreshTocForPath ⟨{}, none, none, false⟩ DEFAULT_SETTINGS [⟨"A", 1⟩]
        [⟨"B", 2⟩]).updating = false := by
  obtain ⟨h1, h2, h3⟩ := toc_C7_signature_after_completed_render
    ⟨{}, none, none, false⟩ DEFAULT_SETTINGS [⟨"A", 1⟩] [⟨"B", 2⟩]
    [⟨2, none, none, "B", "#B"⟩] rfl rfl
  exact ⟨h1.trans (by rfl), h2, h3⟩

/-- **C8.**  For any two filtered heading lists whose levels lie in
`1..6`, the signatures (the `JSON.stringify` serialization of
`level:text` pairs) are equal if and only if the lists are equal
element-wise as (level, text) sequences. -/
theorem toc_C8_signature_iff_equal (l1 l2 : List Heading)
    (h1 : ∀ h ∈ l1, 1 ≤ h.level ∧ h.level ≤ 6)
    (h2 : ∀ h ∈ l2, 1 ≤ h.level ∧ h.level ≤ 6) :
    headingsSignature l1 = headingsSignature l2 ↔ l1 = l2 :=
  ⟨headingsSignature_inj l1 l2 h1 h2, fun h => h ▸ rfl⟩

/-- **C8 witness.**  Both directions at concrete lists: equal lists have
equal signatures, and changing a heading's level changes the
signature. -/
theorem toc_C8_witness :
    headingsSignature [{ heading := "A", level := 1 }] =
      headingsSignature [{ heading := "A", level := 1 }] ∧
    headingsSignature [{ heading := "A", level := 1 }] ≠
      headingsSignature [{ heading := "A", level := 2 }] := by
  constructor
  · exact (toc_C8_signature_iff_equal [{ heading := "A", level := 1 }]
      [{ heading := "A", level := 1 }] (by decide) (by decide)).mpr rfl
  · intro hcontra
    have := (toc_C8_signature_iff_equal [{ heading := "A", level := 1 }]
      [{ heading := "A", level := 2 }] (by decide) (by decide)).mp hcontra
    simp at this

end TocGen
